import Mathlib

/-!
Shallow embedding of the ensemble-distillation repository
(`src/distilled/logits_probability_distribution.py`,
`src/dataloaders/gaussian_sinus.py`, and the metrics consumed by
`src/experiments/mnist_ensemble_test.py`), together with proofs of the
specified properties.

Tensors are modelled as (nested) lists of real numbers; a batch is a list of
row vectors.  Random draws are made explicit: the standard-normal noise that
`torch` generates internally is passed as an argument, so that sampling
becomes a deterministic function of (parameters, noise).
-/

open Real

namespace EnsembleDistr

/-- dot product of two real vectors, truncating at the shorter one
(tensor shapes always agree in the source). -/
noncomputable def listDot (w x : List ℝ) : ℝ :=
  ((w.zip x).map (fun p => p.1 * p.2)).sum

/-- an `nn.Linear(in_features, out_features)` layer: `weight` has one row per
output feature, `bias` one entry per output feature. -/
structure Linear where
  weight : List (List ℝ)
  bias : List ℝ

/-- application of a linear layer to a vector: `W x + b`. -/
noncomputable def Linear.apply (l : Linear) (x : List ℝ) : List ℝ :=
  (l.weight.zip l.bias).map (fun wb => listDot wb.1 x + wb.2)

/-- `nn.functional.relu`. -/
noncomputable def relu (x : ℝ) : ℝ := max x 0

/-- `torch.log(1 + torch.exp(z))`, the softplus transform used on the
variance half of the network output. -/
noncomputable def softplus (z : ℝ) : ℝ := Real.log (1 + Real.exp z)

/-- the full feed-forward pass of `LogitsProbabilityDistribution.forward`
on a single row: ReLU after every layer except the last
(`for layer in self.layers[:-1]: x = relu(layer(x)); x = self.layers[-1](x)`).
An empty layer list would raise in Python (`self.layers[-1]` on an empty
`ModuleList`); it is modelled by the empty layer, unreachable for any model
built by `init` from at least two layer sizes. -/
noncomputable def applyNet (layers : List Linear) (x : List ℝ) : List ℝ :=
  let h := layers.dropLast.foldl (fun acc l => (l.apply acc).map relu) x
  (layers.getLast?.getD ⟨[], []⟩).apply h

/-- teacher interface consumed by the distilled model: `get_logits` returns,
per example, the per-member raw logit rows (batch × members × classes).
The ensemble implementation itself is outside the distilled model. -/
structure Teacher where
  get_logits : List (List ℝ) → List (List (List ℝ))

/-- state of a constructed `LogitsProbabilityDistribution`.  The `loss`
field is what `DistilledNet.__init__` stores from its `loss_function`
argument; `output_size` is the attribute used by `predict`
(`int(self.output_size / 2)` columns), equal to the final layer width. -/
structure LogitsProbabilityDistribution where
  layers : List Linear
  teacher : Teacher
  loss : (List (List ℝ) × List (List ℝ)) → List (List (List ℝ)) → ℝ
  use_hard_labels : Bool
  learning_rate : ℝ
  scale_teacher_logits : Bool
  variance_lower_bound : ℝ
  output_size : ℕ

namespace LogitsProbabilityDistribution

/-- per-example log-density sum of an independent-diagonal Gaussian with the
given mean and variance vectors, evaluated at a target vector. -/
noncomputable def gaussLogDensity (mean var t : List ℝ) : ℝ :=
  ((mean.zip (var.zip t)).map
    (fun q => -(Real.log (2 * Real.pi * q.2.1)) / 2 -
      (q.2.2 - q.1) ^ 2 / (2 * q.2.1))).sum

/-- Modelled from the spec: `src/loss.py` (the module providing
`custom_loss.gaussian_neg_log_likelihood`) is not part of the sources; the
spec describes the loss as the negative mean, over teacher logit samples, of
the log-density of an independent-diagonal Gaussian with the predicted
mean/variance. -/
noncomputable def gaussian_neg_log_likelihood
    (outputs : List (List ℝ) × List (List ℝ))
    (teacher : List (List (List ℝ))) : ℝ :=
  -(((outputs.1.zip (outputs.2.zip teacher)).map
      (fun p => (p.2.2.map (fun t => gaussLogDensity p.1 p.2.1 t)).sum /
        (p.2.2.length : ℝ))).sum / (outputs.1.length : ℝ))

/-- `LogitsProbabilityDistribution.__init__`: builds one `nn.Linear` per
consecutive pair of `layer_sizes`, stores the flags, and sets the ad-hoc
variance lower bound `0.001`.  Random weight initialisation is made explicit:
`w i r c` is the weight of layer `i`, output row `r`, input column `c`, and
`b i r` its bias.  No validity check of `layer_sizes` is performed. -/
noncomputable def init (layer_sizes : List ℕ) (teacher : Teacher)
    (w : ℕ → ℕ → ℕ → ℝ) (b : ℕ → ℕ → ℝ)
    (use_hard_labels : Bool) (learning_rate : ℝ)
    (scale_teacher_logits : Bool) : LogitsProbabilityDistribution :=
  { layers := (List.range (layer_sizes.length - 1)).map (fun i =>
      { weight := (List.range (layer_sizes.getD (i + 1) 0)).map (fun r =>
          (List.range (layer_sizes.getD i 0)).map (fun c => w i r c))
        bias := (List.range (layer_sizes.getD (i + 1) 0)).map (fun r => b i r) })
    teacher := teacher
    loss := gaussian_neg_log_likelihood
    use_hard_labels := use_hard_labels
    learning_rate := learning_rate
    scale_teacher_logits := scale_teacher_logits
    variance_lower_bound := 0.001
    output_size := layer_sizes.getLast?.getD 0 }

/-- `forward`: runs the layers, then splits the output at
`mid = int(x.shape[-1] / 2)` into a mean half and a variance half; the
variance half goes through softplus plus the lower bound. -/
noncomputable def forward (m : LogitsProbabilityDistribution)
    (x : List (List ℝ)) : List (List ℝ) × List (List ℝ) :=
  let out := x.map (applyNet m.layers)
  let mid := (out.head?.getD []).length / 2
  (out.map (fun r => r.take mid),
   out.map (fun r => (r.drop mid).map (fun z => softplus z + m.variance_lower_bound)))

/-- `_generate_teacher_predictions`: queries the teacher for logits and, when
`scale_teacher_logits` is set, subtracts the last entry of each per-member
logit row from the whole row (`logits - torch.stack([logits[:, :, -1]], axis=-1)`)
and drops the last column (`scaled_logits[:, :, :-1]`). -/
noncomputable def generate_teacher_predictions
    (m : LogitsProbabilityDistribution)
    (inputs : List (List ℝ)) : List (List (List ℝ)) :=
  let logits := m.teacher.get_logits inputs
  if m.scale_teacher_logits then
    let scaled := logits.map (fun ex =>
      ex.map (fun row => row.map (fun v => v - row.getLast?.getD 0)))
    scaled.map (fun ex => ex.map (fun row => row.dropLast))
  else
    logits

/-- one reparameterised draw from
`MultivariateNormal(loc=mean, covariance_matrix=diag(var))`: with the
diagonal covariance used in the source this is exactly
`mean + sqrt(var) * eps` for standard-normal noise `eps`. -/
noncomputable def mvnRSample (mean var eps : List ℝ) : List ℝ :=
  (mean.zip (var.zip eps)).map (fun p => p.1 + Real.sqrt p.2.1 * p.2.2)

/-- the transform `predict` applies to the raw samples:
`exp(samples) / (sum(exp(samples), dim=-1) + 1)`. -/
noncomputable def softmaxTransform (s : List ℝ) : List ℝ :=
  s.map (fun k => Real.exp k / ((s.map Real.exp).sum + 1))

/-- `predict`: defaults `num_samples` to 50 when `None`, runs `forward`,
draws `num_samples` reparameterised Gaussian samples per example
(`noise i s` is the standard-normal noise of example `i`, draw `s`), and
maps every draw through the softmax-like transform. -/
noncomputable def predict (m : LogitsProbabilityDistribution)
    (input_ : List (List ℝ)) (noise : ℕ → ℕ → List ℝ)
    (num_samples : Option ℕ) : List (List (List ℝ)) :=
  let ns := match num_samples with
    | none => 50
    | some n => n
  let mv := m.forward input_
  let samples := (mv.1.zip mv.2).mapIdx (fun i p =>
    (List.range ns).map (fun s => mvnRSample p.1 p.2 (noise i s)))
  samples.map (fun ex => ex.map softmaxTransform)

/-- `predict_logits`: the same default, forward pass and sampling loop as
`predict`, but the raw samples are returned untransformed. -/
noncomputable def predict_logits (m : LogitsProbabilityDistribution)
    (input_ : List (List ℝ)) (noise : ℕ → ℕ → List ℝ)
    (num_samples : Option ℕ) : List (List (List ℝ)) :=
  let ns := match num_samples with
    | none => 50
    | some n => n
  let mv := m.forward input_
  (mv.1.zip mv.2).mapIdx (fun i p =>
    (List.range ns).map (fun s => mvnRSample p.1 p.2 (noise i s)))

/-- `calculate_loss`: delegates to the stored loss function on
`(outputs, teacher_predictions)`; the `labels` argument is accepted and
ignored. -/
noncomputable def calculate_loss (m : LogitsProbabilityDistribution)
    (outputs : List (List ℝ) × List (List ℝ))
    (teacher_predictions : List (List (List ℝ)))
    (labels : Option (List ℝ)) : ℝ :=
  m.loss outputs teacher_predictions

end LogitsProbabilityDistribution

namespace Metrics

/-- Modelled from the spec: `src/metrics.py` (the module providing
`metrics.uncertainty_separation_entropy` used by
`src/experiments/mnist_ensemble_test.py`) is not part of the sources.  Per
the spec, for a predictive sample set of `S` draws over `K` classes
(`p s k` is the probability of class `k` in draw `s`) the total uncertainty
is the Shannon entropy of the sample-averaged distribution, the aleatoric
uncertainty is the mean of the per-draw entropies, and the epistemic
uncertainty is total minus aleatoric; the result is unpacked as
`(total, epistemic, aleatoric)` at the call site. -/
noncomputable def uncertainty_separation_entropy (S K : ℕ)
    (p : ℕ → ℕ → ℝ) : ℝ × ℝ × ℝ :=
  let avg := fun k => (∑ s ∈ Finset.range S, p s k) / (S : ℝ)
  let total := ∑ k ∈ Finset.range K, Real.negMulLog (avg k)
  let aleatoric :=
    (∑ s ∈ Finset.range S, ∑ k ∈ Finset.range K, Real.negMulLog (p s k)) / (S : ℝ)
  (total, total - aleatoric, aleatoric)

end Metrics

namespace GaussianSinus

/-- `GaussianSinus.sample_new_data`, with the random draws explicit:
`xDraw i` is the `i`-th uniform draw on `[-3, 3]` and `yNoise i` the
standard-normal noise of the `i`-th target (a diagonal-covariance
`np.random.multivariate_normal` draw is `mu + sqrt(sigma) * noise`
componentwise); `shuffle` is the permutation `np.random.shuffle` applies.
In the `train` branch the targets `y` are sampled and
`np.savetxt` writes the shuffled `(x, y)` rows; the result carries the rows
written to the store file.  In the `not train` branch only `x` is sampled:
the local variable `y` is never assigned, so the subsequent
`np.column_stack((x, y))` raises `NameError` before anything is written. -/
noncomputable def sample_new_data (train : Bool) (n_samples : ℕ)
    (xDraw : ℕ → ℝ) (yNoise : ℕ → ℝ)
    (shuffle : List (ℝ × ℝ) → List (ℝ × ℝ)) :
    Except String (List (ℝ × ℝ)) :=
  if train then
    let x := (List.range n_samples).map xDraw
    let mu := x.map Real.sin
    let sigma := x.map (fun v => (0.15 * (1 / (1 + Real.exp (-v)))) ^ 2)
    let y := ((mu.zip sigma).enum).map
      (fun q => q.2.1 + Real.sqrt q.2.2 * yNoise q.1)
    Except.ok (shuffle (x.zip y))
  else
    Except.error "NameError: name y is not defined"

/-- `GaussianSinus.__init__`: when the store file exists and `reuse_data` is
set, `validate_dataset` asserts that the stored row count is
`n_samples - 1` and no new file is written (result `ok none`); otherwise
`sample_new_data` runs, and on success its rows are written to the store
file (result `ok (some rows)`). -/
noncomputable def init (file_exists : Bool) (stored_rows : ℕ)
    (train reuse_data : Bool) (n_samples : ℕ)
    (xDraw : ℕ → ℝ) (yNoise : ℕ → ℝ)
    (shuffle : List (ℝ × ℝ) → List (ℝ × ℝ)) :
    Except String (Option (List (ℝ × ℝ))) :=
  if file_exists && reuse_data then
    if n_samples - 1 = stored_rows then Except.ok none
    else Except.error "AssertionError"
  else
    (sample_new_data train n_samples xDraw yNoise shuffle).map Option.some

end GaussianSinus

open LogitsProbabilityDistribution

/-- softplus is strictly positive everywhere. -/
lemma softplus_pos (z : ℝ) : 0 < softplus z := by
  have h := Real.exp_pos z
  exact Real.log_pos (by linarith)

/-- sum of exponentials divided by a constant. -/
lemma sum_map_exp_div (s : List ℝ) (c : ℝ) :
    (s.map (fun x => Real.exp x / c)).sum = (s.map Real.exp).sum / c := by
  induction s with
  | nil => simp
  | cons a t ih => simp [ih, add_div]

/-- the sum of exponentials of a list is non-negative. -/
lemma sum_map_exp_nonneg (s : List ℝ) : 0 ≤ (s.map Real.exp).sum := by
  apply List.sum_nonneg
  intro x hx
  obtain ⟨z, -, rfl⟩ := List.mem_map.mp hx
  exact (Real.exp_pos z).le

/-- every entry of the softmax-like transform is non-negative. -/
lemma softmaxTransform_nonneg (s : List ℝ) :
    ∀ v ∈ softmaxTransform s, 0 ≤ v := by
  intro v hv
  obtain ⟨z, -, rfl⟩ := List.mem_map.mp hv
  have h := sum_map_exp_nonneg s
  exact div_nonneg (Real.exp_pos z).le (by linarith)

/-- the entries of the softmax-like transform sum to `E / (E + 1)` with
`E` the sum of exponentials, which is strictly below `1`. -/
lemma softmaxTransform_sum_lt_one (s : List ℝ) :
    (softmaxTransform s).sum < 1 := by
  have h := sum_map_exp_nonneg s
  have hsum : (softmaxTransform s).sum =
      (s.map Real.exp).sum / ((s.map Real.exp).sum + 1) :=
    sum_map_exp_div s _
  rw [hsum]
  exact (div_lt_one (by linarith)).mpr (by linarith)

/-- C1: for every input batch `x`, every entry of the variance vector
returned by `LogitsProbabilityDistribution.forward x` is at least the
configured lower bound `0.001` set at construction, hence strictly
positive. -/
theorem C1_forward_variance_lower_bound
    (layer_sizes : List ℕ) (teacher : Teacher)
    (w : ℕ → ℕ → ℕ → ℝ) (b : ℕ → ℕ → ℝ) (uhl : Bool) (lr : ℝ) (stl : Bool)
    (x : List (List ℝ)) (row : List ℝ) (v : ℝ)
    (hrow : row ∈
      ((init layer_sizes teacher w b uhl lr stl).forward x).2)
    (hv : v ∈ row) :
    0.001 ≤ v ∧ 0 < v := by
  simp only [LogitsProbabilityDistribution.forward] at hrow
  obtain ⟨r, -, rfl⟩ := List.mem_map.mp hrow
  obtain ⟨z, -, rfl⟩ := List.mem_map.mp hv
  have hsp := softplus_pos z
  have hb : (init layer_sizes teacher w b uhl lr stl).variance_lower_bound
      = 0.001 := rfl
  rw [hb]
  constructor <;> linarith

/-- C1 witness: a concrete one-layer model evaluated at a concrete input. -/
theorem C1_forward_variance_lower_bound_witness :
    [softplus 0 + 0.001] ∈
      ((init [1, 2] ⟨fun _ => []⟩ (fun _ _ _ => 0) (fun _ _ => 0)
        false 0 false).forward [[0]]).2 ∧
    (softplus 0 + 0.001) ∈ [softplus 0 + 0.001] ∧
    (0.001 ≤ softplus 0 + 0.001 ∧ 0 < softplus 0 + 0.001) := by
  have hrow : [softplus 0 + 0.001] ∈
      ((init [1, 2] ⟨fun _ => []⟩ (fun _ _ _ => 0) (fun _ _ => 0)
        false 0 false).forward [[0]]).2 := by
    simp [LogitsProbabilityDistribution.forward, init, applyNet,
      Linear.apply, listDot, List.range_succ]
  have hv : (softplus 0 + 0.001) ∈ [softplus 0 + 0.001] := by simp
  exact ⟨hrow, hv,
    C1_forward_variance_lower_bound [1, 2] ⟨fun _ => []⟩ (fun _ _ _ => 0)
      (fun _ _ => 0) false 0 false [[0]] _ _ hrow hv⟩

/-- C3 counterexample: for the concrete one-layer model below, the single
predicted row of `predict` on input `[[0]]` with one zero-noise draw sums to
`exp 0 / (exp 0 + 1) = 1/2`, not `1`: the transform reserves probability
mass for an implicit extra class, so the rows are not on the probability
simplex. -/
theorem C3_predict_row_sum_counterexample :
    (((init [1, 2] ⟨fun _ => []⟩ (fun _ _ _ => 0) (fun _ _ => 0)
        false 0 false).predict [[0]] (fun _ _ => [0]) (some 1)).headI.headI).sum
      ≠ 1 := by
  norm_num [LogitsProbabilityDistribution.predict,
    LogitsProbabilityDistribution.forward, init, applyNet, Linear.apply,
    listDot, mvnRSample, softmaxTransform, Real.exp_zero, List.range_succ]

/-- C3 amended: for every input batch and every draw, the row produced by
`LogitsProbabilityDistribution.predict` has non-negative entries and its
entries sum to strictly less than `1` (the transform divides by the sum of
exponentials plus one). -/
theorem C3_predict_rows_subprobability
    (m : LogitsProbabilityDistribution) (input_ : List (List ℝ))
    (noise : ℕ → ℕ → List ℝ) (num_samples : Option ℕ)
    (ex : List (List ℝ)) (row : List ℝ)
    (hex : ex ∈ m.predict input_ noise num_samples) (hrow : row ∈ ex) :
    (∀ v ∈ row, 0 ≤ v) ∧ row.sum < 1 := by
  simp only [LogitsProbabilityDistribution.predict] at hex
  obtain ⟨a, -, rfl⟩ := List.mem_map.mp hex
  obtain ⟨s, -, rfl⟩ := List.mem_map.mp hrow
  exact ⟨softmaxTransform_nonneg s, softmaxTransform_sum_lt_one s⟩

/-- C3 amended witness: the concrete model of the counterexample,
instantiated at its only predicted row. -/
theorem C3_predict_rows_subprobability_witness :
    [softmaxTransform [0]] ∈
      (init [1, 2] ⟨fun _ => []⟩ (fun _ _ _ => 0) (fun _ _ => 0)
        false 0 false).predict [[0]] (fun _ _ => [0]) (some 1) ∧
    softmaxTransform [0] ∈ [softmaxTransform [0]] ∧
    ((∀ v ∈ softmaxTransform [(0 : ℝ)], 0 ≤ v) ∧
      (softmaxTransform [(0 : ℝ)]).sum < 1) := by
  have hex : [softmaxTransform [(0 : ℝ)]] ∈
      (init [1, 2] ⟨fun _ => []⟩ (fun _ _ _ => 0) (fun _ _ => 0)
        false 0 false).predict [[0]] (fun _ _ => [0]) (some 1) := by
    simp [LogitsProbabilityDistribution.predict,
      LogitsProbabilityDistribution.forward, init, applyNet, Linear.apply,
      listDot, mvnRSample, List.range_succ]
  have hrow : softmaxTransform [(0 : ℝ)] ∈ [softmaxTransform [(0 : ℝ)]] := by
    simp
  exact ⟨hex, hrow,
    C3_predict_rows_subprobability _ [[0]] (fun _ _ => [0]) (some 1) _ _
      hex hrow⟩

/-- C7: `predict` performs the identical sampling procedure as
`predict_logits` (same forward pass, same per-example diagonal-Gaussian
draws from the same noise) and equals the softmax-like transform applied to
the output of `predict_logits`. -/
theorem C7_predict_eq_transform_predict_logits
    (m : LogitsProbabilityDistribution) (input_ : List (List ℝ))
    (noise : ℕ → ℕ → List ℝ) (num_samples : Option ℕ) :
    m.predict input_ noise num_samples =
      (m.predict_logits input_ noise num_samples).map
        (fun ex => ex.map softmaxTransform) := rfl

/-- C8: calling `predict` or `predict_logits` with `num_samples`
unspecified (`None`) behaves identically to calling it with
`num_samples = 50`. -/
theorem C8_default_num_samples_is_50
    (m : LogitsProbabilityDistribution) (input_ : List (List ℝ))
    (noise : ℕ → ℕ → List ℝ) :
    m.predict input_ noise none = m.predict input_ noise (some 50) ∧
    m.predict_logits input_ noise none =
      m.predict_logits input_ noise (some 50) := ⟨rfl, rfl⟩

/-- C9: `calculate_loss` returns `loss(outputs, teacher_predictions)`
regardless of the `labels` argument and of the `use_hard_labels` flag given
at construction, and neither value influences the forward pass or the
predictions: two runs differing only in those values agree everywhere. -/
theorem C9_labels_and_hard_label_flag_noninterference
    (layer_sizes : List ℕ) (teacher : Teacher)
    (w : ℕ → ℕ → ℕ → ℝ) (b : ℕ → ℕ → ℝ) (lr : ℝ) (stl : Bool)
    (uhl₁ uhl₂ : Bool)
    (outputs : List (List ℝ) × List (List ℝ))
    (teacher_predictions : List (List (List ℝ)))
    (labels₁ labels₂ : Option (List ℝ))
    (x : List (List ℝ)) (noise : ℕ → ℕ → List ℝ) (num_samples : Option ℕ) :
    (init layer_sizes teacher w b uhl₁ lr stl).calculate_loss outputs
        teacher_predictions labels₁ =
      (init layer_sizes teacher w b uhl₂ lr stl).calculate_loss outputs
        teacher_predictions labels₂ ∧
    (init layer_sizes teacher w b uhl₁ lr stl).calculate_loss outputs
        teacher_predictions labels₁ =
      gaussian_neg_log_likelihood outputs teacher_predictions ∧
    (init layer_sizes teacher w b uhl₁ lr stl).forward x =
      (init layer_sizes teacher w b uhl₂ lr stl).forward x ∧
    (init layer_sizes teacher w b uhl₁ lr stl).predict x noise num_samples =
      (init layer_sizes teacher w b uhl₂ lr stl).predict x noise num_samples ∧
    (init layer_sizes teacher w b uhl₁ lr stl).predict_logits x noise
        num_samples =
      (init layer_sizes teacher w b uhl₂ lr stl).predict_logits x noise
        num_samples :=
  ⟨rfl, rfl, rfl, rfl, rfl⟩

/-- C5: with `scale_teacher_logits = true`, every per-member teacher logit
row returned by `_generate_teacher_predictions` comes from centering the raw
row (subtracting the last class logit from every logit, which makes the
entry of class `num_classes - 1` identically zero) and dropping that
now-zero last column, so the returned width is `num_classes - 1`. -/
theorem C5_scale_teacher_logits_centers_and_drops_last
    (m : LogitsProbabilityDistribution) (inputs : List (List ℝ))
    (i j : ℕ) (ex : List (List ℝ)) (row : List ℝ)
    (hscale : m.scale_teacher_logits = true)
    (hex : (m.teacher.get_logits inputs)[i]? = some ex)
    (hrow : ex[j]? = some row) (hne : row ≠ []) :
    ∃ ret,
      ((m.generate_teacher_predictions inputs)[i]?.bind (fun e => e[j]?)) =
        some ret ∧
      row.map (fun v => v - row.getLast?.getD 0) = ret ++ [0] ∧
      ret.length = row.length - 1 := by
  refine ⟨(row.map (fun v => v - row.getLast?.getD 0)).dropLast, ?_, ?_, ?_⟩
  · simp [LogitsProbabilityDistribution.generate_teacher_predictions, hscale,
      hex, hrow]
  · have hq : ∃ a, row.getLast? = some a := by
      cases h' : row.getLast? with
      | none => exact absurd (List.getLast?_eq_none_iff.mp h') hne
      | some a => exact ⟨a, rfl⟩
    obtain ⟨a, hq⟩ := hq
    have hlast : (row.map (fun v => v - row.getLast?.getD 0)).getLast? =
        some 0 := by
      rw [List.getLast?_map, hq]
      simp [hq]
    exact (List.dropLast_append_getLast? 0 hlast).symm
  · simp

/-- C5 witness: a teacher producing the single logit row `[1, 2, 3]`, with
scaling enabled. -/
theorem C5_scale_teacher_logits_centers_and_drops_last_witness :
    ((init [1, 1] ⟨fun _ => [[[1, 2, 3]]]⟩ (fun _ _ _ => 0) (fun _ _ => 0)
        false 0 true).scale_teacher_logits = true) ∧
    (((init [1, 1] ⟨fun _ => [[[1, 2, 3]]]⟩ (fun _ _ _ => 0) (fun _ _ => 0)
        false 0 true).teacher.get_logits [[0]])[0]? = some [[1, 2, 3]]) ∧
    (([[(1 : ℝ), 2, 3]] : List (List ℝ))[0]? = some [1, 2, 3]) ∧
    (([(1 : ℝ), 2, 3] : List ℝ) ≠ []) ∧
    (∃ ret,
      (((init [1, 1] ⟨fun _ => [[[1, 2, 3]]]⟩ (fun _ _ _ => 0) (fun _ _ => 0)
          false 0 true).generate_teacher_predictions [[0]])[0]?.bind
            (fun e => e[0]?)) = some ret ∧
      ([(1 : ℝ), 2, 3]).map
          (fun v => v - ([(1 : ℝ), 2, 3]).getLast?.getD 0) = ret ++ [0] ∧
      ret.length = ([(1 : ℝ), 2, 3]).length - 1) := by
  refine ⟨rfl, rfl, rfl, by simp, ?_⟩
  exact C5_scale_teacher_logits_centers_and_drops_last _ [[0]] 0 0
    [[1, 2, 3]] [1, 2, 3] rfl rfl rfl (by simp)

/-- C4: for a batch of `B` examples and `S = ns` requested samples,
`predict` returns a `B × S × K` tensor (`K` the common width of the
predicted mean/variance rows and of the noise vectors) whose `(i, s)` entry
is exactly the softmax-with-added-one transform
`exp(draw) / (sum(exp(draw)) + 1)` of the raw Gaussian draw
`mean_i + sqrt(var_i) * noise i s`. -/
theorem C4_predict_shape_and_entries
    (m : LogitsProbabilityDistribution) (input_ : List (List ℝ))
    (noise : ℕ → ℕ → List ℝ) (ns K : ℕ)
    (hmean : ∀ r ∈ (m.forward input_).1, r.length = K)
    (hvar : ∀ r ∈ (m.forward input_).2, r.length = K)
    (hnoise : ∀ i s, (noise i s).length = K) :
    (m.predict input_ noise (some ns)).length = input_.length ∧
    (∀ ex ∈ m.predict input_ noise (some ns), ex.length = ns) ∧
    (∀ ex ∈ m.predict input_ noise (some ns), ∀ row ∈ ex, row.length = K) ∧
    (∀ i s mrow vrow, ((m.forward input_).1)[i]? = some mrow →
      ((m.forward input_).2)[i]? = some vrow → s < ns →
      ((m.predict input_ noise (some ns))[i]?.bind (fun e => e[s]?)) =
        some (softmaxTransform (mvnRSample mrow vrow (noise i s)))) := by
  refine ⟨?_, ?_, ?_, ?_⟩
  · simp [LogitsProbabilityDistribution.predict,
      LogitsProbabilityDistribution.forward]
  · intro ex hex
    simp only [LogitsProbabilityDistribution.predict] at hex
    obtain ⟨a, ha, rfl⟩ := List.mem_map.mp hex
    obtain ⟨i, hi, rfl⟩ := List.mem_mapIdx.mp ha
    simp
  · intro ex hex row hrow
    simp only [LogitsProbabilityDistribution.predict] at hex
    obtain ⟨a, ha, rfl⟩ := List.mem_map.mp hex
    obtain ⟨i, hi, rfl⟩ := List.mem_mapIdx.mp ha
    obtain ⟨r0, hr0, rfl⟩ := List.mem_map.mp hrow
    obtain ⟨t, ht, rfl⟩ := List.mem_map.mp hr0
    have hp : (((m.forward input_).1.zip ((m.forward input_).2))[i]) ∈
        ((m.forward input_).1.zip ((m.forward input_).2)) :=
      List.getElem_mem _
    have h1 := hmean _ (List.of_mem_zip hp).1
    have h2 := hvar _ (List.of_mem_zip hp).2
    simp only [List.get_eq_getElem, List.getElem_zip] at h1 h2
    simp [softmaxTransform, mvnRSample, hnoise]
    omega
  · intro i s mrow vrow hm hv hs
    have hzip : (((m.forward input_).1).zip ((m.forward input_).2))[i]? =
        some (mrow, vrow) :=
      List.getElem?_zip_eq_some.mpr ⟨hm, hv⟩
    simp [LogitsProbabilityDistribution.predict, hzip,
      List.getElem?_range hs]

/-- C4 witness: the concrete one-layer model on a single-example batch with
one sample and one class. -/
theorem C4_predict_shape_and_entries_witness :
    (∀ r ∈ ((init [1, 2] ⟨fun _ => []⟩ (fun _ _ _ => 0) (fun _ _ => 0)
        false 0 false).forward [[0]]).1, r.length = 1) ∧
    (∀ r ∈ ((init [1, 2] ⟨fun _ => []⟩ (fun _ _ _ => 0) (fun _ _ => 0)
        false 0 false).forward [[0]]).2, r.length = 1) ∧
    (∀ i s : ℕ, (((fun _ _ => [0]) : ℕ → ℕ → List ℝ) i s).length = 1) ∧
    (((init [1, 2] ⟨fun _ => []⟩ (fun _ _ _ => 0) (fun _ _ => 0)
        false 0 false).predict [[0]] (fun _ _ => [0]) (some 1)).length
      = ([[(0 : ℝ)]] : List (List ℝ)).length ∧
    (∀ ex ∈ (init [1, 2] ⟨fun _ => []⟩ (fun _ _ _ => 0) (fun _ _ => 0)
        false 0 false).predict [[0]] (fun _ _ => [0]) (some 1),
      ex.length = 1) ∧
    (∀ ex ∈ (init [1, 2] ⟨fun _ => []⟩ (fun _ _ _ => 0) (fun _ _ => 0)
        false 0 false).predict [[0]] (fun _ _ => [0]) (some 1),
      ∀ row ∈ ex, row.length = 1) ∧
    (∀ i s mrow vrow,
      (((init [1, 2] ⟨fun _ => []⟩ (fun _ _ _ => 0) (fun _ _ => 0)
        false 0 false).forward [[0]]).1)[i]? = some mrow →
      (((init [1, 2] ⟨fun _ => []⟩ (fun _ _ _ => 0) (fun _ _ => 0)
        false 0 false).forward [[0]]).2)[i]? = some vrow → s < 1 →
      (((init [1, 2] ⟨fun _ => []⟩ (fun _ _ _ => 0) (fun _ _ => 0)
        false 0 false).predict [[0]] (fun _ _ => [0]) (some 1))[i]?.bind
          (fun e => e[s]?)) =
        some (softmaxTransform (mvnRSample mrow vrow
          (((fun _ _ => [0]) : ℕ → ℕ → List ℝ) i s))))) := by
  have hmean : ∀ r ∈ ((init [1, 2] ⟨fun _ => []⟩ (fun _ _ _ => 0)
      (fun _ _ => 0) false 0 false).forward [[0]]).1, r.length = 1 := by
    simp [LogitsProbabilityDistribution.forward, init, applyNet,
      Linear.apply, listDot, List.range_succ]
  have hvar : ∀ r ∈ ((init [1, 2] ⟨fun _ => []⟩ (fun _ _ _ => 0)
      (fun _ _ => 0) false 0 false).forward [[0]]).2, r.length = 1 := by
    simp [LogitsProbabilityDistribution.forward, init, applyNet,
      Linear.apply, listDot, List.range_succ]
  have hnoise : ∀ i s : ℕ,
      (((fun _ _ => [0]) : ℕ → ℕ → List ℝ) i s).length = 1 := by
    intro i s
    rfl
  exact ⟨hmean, hvar, hnoise,
    C4_predict_shape_and_entries _ [[0]] (fun _ _ => [0]) 1 1
      hmean hvar hnoise⟩

/-- C6: constructing with the malformed layer-size list `[1, 3]` (odd final
width `3`, incompatible with an equal mean/variance split) is NOT rejected:
`__init__` builds the single linear layer without any check, and `forward`
silently splits the width-3 output at `mid = 3 / 2 = 1` into a mean of
width `1` and a variance of width `2`. -/
theorem C6_odd_final_width_constructs_and_splits_unequally :
    ((init [1, 3] ⟨fun _ => []⟩ (fun _ _ _ => 0) (fun _ _ => 0)
        false 0 false).layers.length = 1) ∧
    (((init [1, 3] ⟨fun _ => []⟩ (fun _ _ _ => 0) (fun _ _ => 0)
        false 0 false).forward [[0]]).1.headI.length = 1) ∧
    (((init [1, 3] ⟨fun _ => []⟩ (fun _ _ _ => 0) (fun _ _ => 0)
        false 0 false).forward [[0]]).2.headI.length = 2) := by
  refine ⟨?_, ?_, ?_⟩ <;>
    simp [init, LogitsProbabilityDistribution.forward, applyNet,
      Linear.apply, listDot, List.range_succ]

/-- C10: in test mode (`train = False`) with no reusable stored file,
`GaussianSinus.__init__` always fails with the `NameError` raised by
`sample_new_data` (its test branch never assigns the targets `y` used by
`np.column_stack`), so no dataset file content is ever produced; an
`ok (some rows)` outcome, meaning a file was written, is impossible with
`train = False` under any configuration. -/
theorem C10_test_mode_construction_always_fails
    (file_exists reuse_data : Bool) (stored_rows n_samples : ℕ)
    (xDraw yNoise : ℕ → ℝ) (shuffle : List (ℝ × ℝ) → List (ℝ × ℝ))
    (fe2 rd2 : Bool) (sr2 n2 : ℕ) (xD2 yN2 : ℕ → ℝ)
    (sh2 : List (ℝ × ℝ) → List (ℝ × ℝ)) (rows2 : List (ℝ × ℝ))
    (h : ¬(file_exists = true ∧ reuse_data = true)) :
    GaussianSinus.init file_exists stored_rows false reuse_data n_samples
        xDraw yNoise shuffle =
      Except.error "NameError: name y is not defined" ∧
    GaussianSinus.init fe2 sr2 false rd2 n2 xD2 yN2 sh2 ≠
      Except.ok (some rows2) := by
  constructor
  · have hfe : (file_exists && reuse_data) = false := by
      cases file_exists <;> cases reuse_data <;> simp_all
    simp [GaussianSinus.init, hfe, GaussianSinus.sample_new_data, Except.map]
  · intro hok
    cases fe2 <;> cases rd2 <;>
      simp [GaussianSinus.init, GaussianSinus.sample_new_data,
        Except.map] at hok <;>
      split at hok <;> simp_all

/-- C10 witness: fresh test-mode dataset with no stored file. -/
theorem C10_test_mode_construction_always_fails_witness :
    (¬(false = true ∧ false = true)) ∧
    (GaussianSinus.init false 0 false false 1 (fun _ => 0) (fun _ => 0) id =
      Except.error "NameError: name y is not defined" ∧
    GaussianSinus.init false 0 false false 1 (fun _ => 0) (fun _ => 0) id ≠
      Except.ok (some [])) := by
  refine ⟨by simp, ?_⟩
  exact C10_test_mode_construction_always_fails false false 0 1
    (fun _ => 0) (fun _ => 0) id false false 0 1 (fun _ => 0) (fun _ => 0)
    id [] (by simp)

/-- Jensen step for the entropy decomposition: for one class coordinate,
the average of `negMulLog` over the draws is at most `negMulLog` of the
averaged coordinate. -/
lemma avg_negMulLog_le_negMulLog_avg (S : ℕ) (hS : 0 < S) (q : ℕ → ℝ)
    (hq : ∀ s < S, 0 ≤ q s) :
    (∑ s ∈ Finset.range S, Real.negMulLog (q s)) / (S : ℝ) ≤
      Real.negMulLog ((∑ s ∈ Finset.range S, q s) / (S : ℝ)) := by
  have hSne : ((S : ℝ)) ≠ 0 := Nat.cast_ne_zero.mpr hS.ne'
  have h0 : ∀ i ∈ Finset.range S, (0 : ℝ) ≤ ((S : ℝ))⁻¹ := by
    intro i _
    positivity
  have h1 : ∑ i ∈ Finset.range S, ((S : ℝ))⁻¹ = 1 := by
    rw [Finset.sum_const, Finset.card_range, nsmul_eq_mul,
      mul_inv_cancel₀ hSne]
  have hmem : ∀ i ∈ Finset.range S, q i ∈ Set.Ici (0 : ℝ) := by
    intro i hi
    exact hq i (Finset.mem_range.mp hi)
  have h := Real.concaveOn_negMulLog.le_map_sum h0 h1 hmem
  calc (∑ s ∈ Finset.range S, Real.negMulLog (q s)) / (S : ℝ)
      = ∑ s ∈ Finset.range S, ((S : ℝ))⁻¹ • Real.negMulLog (q s) := by
        rw [div_eq_inv_mul, Finset.mul_sum]
        simp [smul_eq_mul]
    _ ≤ Real.negMulLog (∑ s ∈ Finset.range S, ((S : ℝ))⁻¹ • q s) := h
    _ = Real.negMulLog ((∑ s ∈ Finset.range S, q s) / (S : ℝ)) := by
        rw [div_eq_inv_mul, Finset.mul_sum]
        simp [smul_eq_mul]

/-- C2: for every predictive sample set (`S` draws, each a probability
vector over `K` classes), `uncertainty_separation_entropy` returns
`(total, epistemic, aleatoric)` with `total = aleatoric + epistemic`, all
three non-negative, `total` the Shannon entropy of the sample-averaged
distribution, `aleatoric` the mean of the per-draw entropies, and
`epistemic = total - aleatoric`. -/
theorem C2_uncertainty_separation_entropy_decomposition
    (S K : ℕ) (p : ℕ → ℕ → ℝ) (hS : 0 < S)
    (hnn : ∀ s < S, ∀ k < K, 0 ≤ p s k)
    (hsum : ∀ s < S, ∑ k ∈ Finset.range K, p s k = 1) :
    (Metrics.uncertainty_separation_entropy S K p).1 =
      (Metrics.uncertainty_separation_entropy S K p).2.2 +
      (Metrics.uncertainty_separation_entropy S K p).2.1 ∧
    0 ≤ (Metrics.uncertainty_separation_entropy S K p).1 ∧
    0 ≤ (Metrics.uncertainty_separation_entropy S K p).2.1 ∧
    0 ≤ (Metrics.uncertainty_separation_entropy S K p).2.2 ∧
    (Metrics.uncertainty_separation_entropy S K p).1 =
      ∑ k ∈ Finset.range K,
        Real.negMulLog ((∑ s ∈ Finset.range S, p s k) / (S : ℝ)) ∧
    (Metrics.uncertainty_separation_entropy S K p).2.2 =
      (∑ s ∈ Finset.range S,
        ∑ k ∈ Finset.range K, Real.negMulLog (p s k)) / (S : ℝ) ∧
    (Metrics.uncertainty_separation_entropy S K p).2.1 =
      (Metrics.uncertainty_separation_entropy S K p).1 -
        (Metrics.uncertainty_separation_entropy S K p).2.2 := by
  have hSpos : (0 : ℝ) < (S : ℝ) := by exact_mod_cast hS
  have hle1 : ∀ s < S, ∀ k < K, p s k ≤ 1 := by
    intro s hs k hk
    calc p s k ≤ ∑ j ∈ Finset.range K, p s j :=
          Finset.single_le_sum
            (fun j hj => hnn s hs j (Finset.mem_range.mp hj))
            (Finset.mem_range.mpr hk)
      _ = 1 := hsum s hs
  have htot_nn : 0 ≤ ∑ k ∈ Finset.range K,
      Real.negMulLog ((∑ s ∈ Finset.range S, p s k) / (S : ℝ)) := by
    apply Finset.sum_nonneg
    intro k hk
    have hk' := Finset.mem_range.mp hk
    apply Real.negMulLog_nonneg
    · apply div_nonneg _ hSpos.le
      apply Finset.sum_nonneg
      intro s hs
      exact hnn s (Finset.mem_range.mp hs) k hk'
    · rw [div_le_one hSpos]
      calc ∑ s ∈ Finset.range S, p s k ≤ ∑ s ∈ Finset.range S, 1 :=
            Finset.sum_le_sum
              (fun s hs => hle1 s (Finset.mem_range.mp hs) k hk')
        _ = (S : ℝ) := by simp
  have hal_nn : 0 ≤ (∑ s ∈ Finset.range S,
      ∑ k ∈ Finset.range K, Real.negMulLog (p s k)) / (S : ℝ) := by
    apply div_nonneg _ hSpos.le
    apply Finset.sum_nonneg
    intro s hs
    apply Finset.sum_nonneg
    intro k hk
    exact Real.negMulLog_nonneg
      (hnn s (Finset.mem_range.mp hs) k (Finset.mem_range.mp hk))
      (hle1 s (Finset.mem_range.mp hs) k (Finset.mem_range.mp hk))
  have hal_le : (∑ s ∈ Finset.range S,
      ∑ k ∈ Finset.range K, Real.negMulLog (p s k)) / (S : ℝ) ≤
      ∑ k ∈ Finset.range K,
        Real.negMulLog ((∑ s ∈ Finset.range S, p s k) / (S : ℝ)) := by
    have hswap : (∑ s ∈ Finset.range S,
        ∑ k ∈ Finset.range K, Real.negMulLog (p s k)) / (S : ℝ) =
        ∑ k ∈ Finset.range K,
          (∑ s ∈ Finset.range S, Real.negMulLog (p s k)) / (S : ℝ) := by
      rw [Finset.sum_comm, Finset.sum_div]
    rw [hswap]
    apply Finset.sum_le_sum
    intro k hk
    exact avg_negMulLog_le_negMulLog_avg S hS (fun s => p s k)
      (fun s hs => hnn s hs k (Finset.mem_range.mp hk))
  have hdef : Metrics.uncertainty_separation_entropy S K p =
      (∑ k ∈ Finset.range K,
        Real.negMulLog ((∑ s ∈ Finset.range S, p s k) / (S : ℝ)),
       (∑ k ∈ Finset.range K,
         Real.negMulLog ((∑ s ∈ Finset.range S, p s k) / (S : ℝ))) -
         (∑ s ∈ Finset.range S,
           ∑ k ∈ Finset.range K, Real.negMulLog (p s k)) / (S : ℝ),
       (∑ s ∈ Finset.range S,
         ∑ k ∈ Finset.range K, Real.negMulLog (p s k)) / (S : ℝ)) := rfl
  rw [hdef]
  exact ⟨by ring, htot_nn, by simpa using sub_nonneg.mpr hal_le, hal_nn,
    rfl, rfl, rfl⟩

/-- C2 witness: a single draw over a single class with probability `1`. -/
theorem C2_uncertainty_separation_entropy_decomposition_witness :
    (0 < 1) ∧
    ((Metrics.uncertainty_separation_entropy 1 1 (fun _ _ => (1 : ℝ))).1 =
        (Metrics.uncertainty_separation_entropy 1 1 (fun _ _ => (1 : ℝ))).2.2 +
        (Metrics.uncertainty_separation_entropy 1 1 (fun _ _ => (1 : ℝ))).2.1 ∧
      0 ≤ (Metrics.uncertainty_separation_entropy 1 1 (fun _ _ => (1 : ℝ))).1 ∧
      0 ≤ (Metrics.uncertainty_separation_entropy 1 1 (fun _ _ => (1 : ℝ))).2.1 ∧
      0 ≤ (Metrics.uncertainty_separation_entropy 1 1
        (fun _ _ => (1 : ℝ))).2.2) := by
  constructor
  · norm_num
  · have h := C2_uncertainty_separation_entropy_decomposition 1 1
      (fun _ _ => (1 : ℝ)) (by norm_num)
      (fun s _ k _ => by norm_num) (fun s _ => by simp)
    exact ⟨h.1, h.2.1, h.2.2.1, h.2.2.2.1⟩

end EnsembleDistr
